import Mathlib

/-!
A shallow embedding in Lean 4 of the state-stack orchestration engine of
broot (files `src/app.rs` and `src/external.rs`), together with theorems
settling the specification claims about it.

Modelling conventions:
* The concrete UI states implement the `AppState` trait; the engine is
  polymorphic over them.  We model a state as a value of an abstract type
  `σ` together with a record `StateOps σ` of the trait methods the engine
  calls (`apply`, `refresh`, `has_pending_tasks`, `do_pending_task`).
  Rust's `&mut self` methods are modelled as functions returning the
  updated state.
* The `Screen` handle is opaque to the engine: it only receives write
  calls.  We model it as the trace (list) of write events issued so far,
  so that theorems can speak about exactly which rendering calls a code
  path performs.
* `Vec<Box<dyn AppState>>` with `last` as the current state is modelled
  as a `List σ` whose HEAD is the top of the stack (Rust's `push`/`pop`
  at the end become cons/tail at the head).
* Functions that `panic!` in Rust (`state()` on an empty stack) return
  `none`.
* Loops without a structural bound (`do_pending_tasks`) take fuel and
  return `none` when it runs out.
-/

/-- A raw key event, opaque to the engine (termion's `Key`). -/
abbrev Key := Nat

/-- Modelled from the spec: the `Command` type lives in `commands.rs`,
which is not under `src/`; per the spec it is a "mutable accumulator of
raw input text plus a derived action (opaque to the core)", "built
incrementally by appending one key event at a time".  We model it as the
accumulated list of key events. -/
structure Command where
  raw : List Key
deriving DecidableEq, Repr

/-- Modelled from the spec: `Command::new()` — the empty accumulator. -/
def Command.new : Command := ⟨[]⟩

/-- Modelled from the spec: `cmd.add_key(c)` appends one key event. -/
def Command.add_key (c : Command) (k : Key) : Command := ⟨c.raw ++ [k]⟩

/-- Type `Launchable` from `src/external.rs`: description of a possible launch
of an external program, executed only on end of life of broot. -/
inductive Launchable where
  | Printer (to_print : String)
  | Program (exe : String) (args : List String)
  | SystemOpen (path : String)
deriving DecidableEq, Repr

/-- The write calls the engine (or a state, through the engine) issues on
the screen; the screen is modelled as the trace of these events. -/
inductive ScreenWrite where
  | read_size
  | write_input (cmd : Command)
  | write_flags
  | write_status (cmd : Command)
  | write_status_err (msg : String)
  | write_spinner (b : Bool)
  | display
deriving DecidableEq, Repr

/-- The screen, as the trace of write events issued so far. -/
abbrev Screen := List ScreenWrite

/-- Modelled from the spec: `TaskLifetime` lives in `task_sync.rs`, which
is not under `src/`.  Per the spec it is "either `Unlimited` (never
expires) or bound to a snapshot of the shared counter at creation time".
-/
inductive TaskLifetime where
  | unlimited
  | bound (snapshot : Nat)
deriving DecidableEq, Repr

/-- Modelled from the spec: "`is_expired()` is true iff the shared
counter's current value differs from the snapshot"; an `Unlimited` token
never expires.  The current counter value is passed explicitly. -/
def TaskLifetime.is_expired : TaskLifetime → Nat → Bool
  | .unlimited, _ => false
  | .bound k, current => current != k

/-- Type `AppStateCmdResult` from `src/app.rs`: result of applying a command
to a state.  `σ` is the type of concrete states (`Box<dyn AppState>`). -/
inductive AppStateCmdResult (σ : Type) where
  | Quit
  | Keep
  | Launch (l : Launchable)
  | DisplayError (msg : String)
  | NewState (st : σ) (cmd : Command)
  | PopStateAndReapply
  | PopState
  | RefreshState
deriving DecidableEq, Repr

/-- The `AppState` trait methods the engine calls, for states of type
`σ`.  `apply` and `refresh` take `&mut self` in Rust, so they also return
the updated state; the screen/context arguments are opaque to the engine
and the state's own writes to the screen are not part of the engine's
observable trace. -/
structure StateOps (σ : Type) where
  apply : σ → Command → AppStateCmdResult σ × σ
  refresh : σ → Command × σ
  has_pending_tasks : σ → Bool
  do_pending_task : σ → σ

/-- Structure `App` from `src/app.rs`: the stack of states (head of the list = top
of the stack = current state), the quitting flag and the deferred launch.
-/
structure App (σ : Type) where
  states : List σ
  quitting : Bool
  launch_at_end : Option Launchable
deriving DecidableEq, Repr

/-- Constructor `App::new()`. -/
def App.new (σ : Type) : App σ := ⟨[], false, none⟩

mutual

/-- The body of `App::apply_command`, walking the state stack (head =
current state).  `quitting` and `lae` are the other two fields of `self`;
it issues the pre-dispatch screen writes (`read_size`, `write_input`,
`write_flags`), calls the current state's `apply` and branches on the
result via `dispatch_result`.  Returns the updated app, the command now
in play and the screen trace, or `none` when the stack is empty (Rust
panics there). -/
def apply_command_go (ops : StateOps σ) :
    List σ → Bool → Option Launchable → Command → Screen →
    Option (App σ × Command × Screen)
  | [], _, _, _, _ => none
  | top :: rest, quitting, lae, cmd, screen =>
    dispatch_result ops ((ops.apply top cmd).1) ((ops.apply top cmd).2)
      rest quitting lae cmd
      (screen ++ [ScreenWrite.read_size, ScreenWrite.write_input cmd,
        ScreenWrite.write_flags])
termination_by sts => 2 * sts.length

/-- The `match` block of `App::apply_command` on the `AppStateCmdResult`
returned by the current state's `apply`.  `top1` is the (possibly
mutated) current state, `rest` the stack below it.  Every branch except
`PopStateAndReapply`-on-a-larger-stack appends the trailing
`write_input`/`write_flags` repaints; that branch instead re-runs the
whole dispatch on the popped stack with the same command (the
`return self.apply_command(cmd, ...)` of the source). -/
def dispatch_result (ops : StateOps σ) :
    AppStateCmdResult σ → σ → List σ → Bool → Option Launchable →
    Command → Screen → Option (App σ × Command × Screen)
  | .Quit, top1, rest, _, lae, cmd, screen1 =>
    some (⟨top1 :: rest, true, lae⟩, cmd,
      screen1 ++ [ScreenWrite.write_input cmd, ScreenWrite.write_flags])
  | .Launch l, top1, rest, _, _, cmd, screen1 =>
    some (⟨top1 :: rest, true, some l⟩, cmd,
      screen1 ++ [ScreenWrite.write_input cmd, ScreenWrite.write_flags])
  | .NewState st newCmd, top1, rest, quitting, lae, _, screen1 =>
    some (⟨st :: top1 :: rest, quitting, lae⟩, newCmd,
      screen1 ++ [ScreenWrite.write_status newCmd,
        ScreenWrite.write_input newCmd, ScreenWrite.write_flags])
  | .RefreshState, top1, rest, quitting, lae, _, screen1 =>
    some (⟨(ops.refresh top1).2 :: rest, quitting, lae⟩, (ops.refresh top1).1,
      screen1 ++ [ScreenWrite.write_input (ops.refresh top1).1,
        ScreenWrite.write_flags])
  | .PopState, top1, rest, quitting, lae, cmd, screen1 =>
    (match rest with
    | [] =>
      some (⟨[top1], true, lae⟩, cmd,
        screen1 ++ [ScreenWrite.write_input cmd, ScreenWrite.write_flags])
    | next :: rest2 =>
      some (⟨(ops.refresh next).2 :: rest2, quitting, lae⟩,
        (ops.refresh next).1,
        screen1 ++ [ScreenWrite.write_status (ops.refresh next).1,
          ScreenWrite.write_input (ops.refresh next).1,
          ScreenWrite.write_flags]))
  | .PopStateAndReapply, top1, rest, quitting, lae, cmd, screen1 =>
    (match rest with
    | [] =>
      some (⟨[top1], true, lae⟩, cmd,
        screen1 ++ [ScreenWrite.write_input cmd, ScreenWrite.write_flags])
    | next :: rest2 =>
      apply_command_go ops (next :: rest2) quitting lae cmd screen1)
  | .DisplayError msg, top1, rest, quitting, lae, cmd, screen1 =>
    some (⟨top1 :: rest, quitting, lae⟩, cmd,
      screen1 ++ [ScreenWrite.write_status_err msg,
        ScreenWrite.write_input cmd, ScreenWrite.write_flags])
  | .Keep, top1, rest, quitting, lae, cmd, screen1 =>
    some (⟨top1 :: rest, quitting, lae⟩, cmd,
      screen1 ++ [ScreenWrite.write_status cmd,
        ScreenWrite.write_input cmd, ScreenWrite.write_flags])
termination_by _ _ rest => 2 * rest.length + 1

end

/-- Function `App::apply_command` from `src/app.rs`. -/
def apply_command (ops : StateOps σ) (app : App σ) (cmd : Command)
    (screen : Screen) : Option (App σ × Command × Screen) :=
  apply_command_go ops app.states app.quitting app.launch_at_end cmd screen

/-- How the inner loop of `do_pending_tasks` exited: because the state
reported no more pending work, or because the lifetime expired. -/
inductive PumpExit where
  | noMoreWork
  | expired
deriving DecidableEq, Repr

/-- The `loop` inside `App::do_pending_tasks`: repaint (status, spinner,
content), break if the lifetime is expired, perform one pending task,
break if no pending work remains.  `counter` is the current value of the
shared counter the lifetime is checked against (constant here: in this
sequential model no key arrives during the pump).  `calls` accumulates
the number of `do_pending_task` calls made so far; the fuel bounds the
number of iterations (`none` = fuel ran out). -/
def pump_loop (ops : StateOps σ) (tl : TaskLifetime) (counter : Nat)
    (cmd : Command) :
    Nat → σ → Screen → Nat → Option (σ × Screen × Nat × PumpExit)
  | 0, _, _, _ => none
  | fuel + 1, s, screen, calls =>
    let screen1 := screen ++ [ScreenWrite.write_status cmd,
      ScreenWrite.write_spinner true, ScreenWrite.display]
    if tl.is_expired counter then
      some (s, screen1, calls, .expired)
    else
      let s1 := ops.do_pending_task s
      if ops.has_pending_tasks s1 then
        pump_loop ops tl counter cmd fuel s1 screen1 (calls + 1)
      else
        some (s1, screen1, calls + 1, .noMoreWork)

/-- Function `App::do_pending_tasks` from `src/app.rs`: if the current state has
pending tasks, run the pump loop, then clear the spinner; in all cases
issue one final repaint.  Besides the updated app and the screen trace it
returns, for observability, the number of `do_pending_task` calls made
and how the loop exited (`none` when the loop never ran).  Returns `none`
for an empty stack (Rust panics) or when the fuel runs out. -/
def do_pending_tasks (ops : StateOps σ) (fuel : Nat) (app : App σ)
    (cmd : Command) (tl : TaskLifetime) (counter : Nat) (screen : Screen) :
    Option (App σ × Screen × Nat × Option PumpExit) :=
  match app.states with
  | [] => none
  | top :: rest =>
    if ops.has_pending_tasks top then
      match pump_loop ops tl counter cmd fuel top screen 0 with
      | none => none
      | some (top1, screen1, calls, ex) =>
        some (⟨top1 :: rest, app.quitting, app.launch_at_end⟩,
          screen1 ++ [ScreenWrite.write_spinner false, ScreenWrite.display],
          calls, some ex)
    else
      some (app, screen ++ [ScreenWrite.display], 0, none)

/-- The interactive loop of `App::run` (`src/app.rs`, the `loop` after
the relay thread is spawned), sequentialised: `keys` is the stream of key
events the relay will deliver, `counter` the number of keys accepted so
far (the value of the shared counter, which the relay increments once per
key before sending it).  Each iteration: unless quitting, pump pending
tasks with a lifetime bound to the current counter; block for the next
key (if the relay has ended — ack `true` received, or `keys` exhausted —
the channel is closed and the loop breaks); append the key to the command,
dispatch, and send the quitting flag back to the relay.  Returns the
final app (whose `launch_at_end` is what `run` returns), the command and
the screen trace; `none` when the pump fuel runs out or the stack is
empty. -/
def run_loop (ops : StateOps σ) (fuel : Nat) :
    List Key → App σ → Command → Nat → Screen →
    Option (App σ × Command × Screen)
  | [], app, cmd, counter, screen =>
    if app.quitting then
      some (app, cmd, screen)
    else
      (do_pending_tasks ops fuel app cmd (TaskLifetime.bound counter) counter
        screen).bind
        (fun r => some (r.1, cmd, r.2.1))
  | k :: ks, app, cmd, counter, screen =>
    if app.quitting then
      some (app, cmd, screen)
    else
      (do_pending_tasks ops fuel app cmd (TaskLifetime.bound counter) counter
        screen).bind
        (fun r =>
          (apply_command ops r.1 (cmd.add_key k) r.2.1).bind
            (fun r2 => run_loop ops fuel ks r2.1 r2.2.1 (counter + 1) r2.2.2))

/-- The two threads of the application. -/
inductive ThreadId where
  | relay
  | engine
deriving DecidableEq, Repr

/-- The observable events of the relay/engine handshake: the relay thread
increments the shared counter and sends the key; the engine receives it,
appends it to the command, dispatches, and sends the quitting flag back;
the relay receives the acknowledgment. -/
inductive Event where
  | incrCounter (t : ThreadId)
  | sendKey (k : Key)
  | recvKey (k : Key)
  | addKey (k : Key)
  | dispatch
  | sendQuit (q : Bool)
  | recvQuit (q : Bool)
deriving DecidableEq, Repr

/-- The joint trace of the relay thread (`thread::spawn` body in
`App::run`) and the engine loop, for a given stream of stdin keys and the
sequence of quitting flags the engine sends back.  Because every channel
receive blocks until the matching send, the interleaving is fully
determined: per key, the relay increments the counter and sends the key;
the engine receives it, appends it, dispatches, and sends its quitting
flag; the relay receives it and returns if it is `true`.  If `quits` runs
dry the engine has stopped (trace ends); if the keys run dry the relay's
`for` loop ends and the engine's receive fails (loop break). -/
def handshake_trace : List Key → List Bool → List Event
  | [], _ => []
  | k :: _, [] =>
    [Event.incrCounter ThreadId.relay, Event.sendKey k, Event.recvKey k,
     Event.addKey k, Event.dispatch]
  | k :: ks, q :: qs =>
    [Event.incrCounter ThreadId.relay, Event.sendKey k, Event.recvKey k,
     Event.addKey k, Event.dispatch, Event.sendQuit q, Event.recvQuit q] ++
    (if q then [] else handshake_trace ks qs)

/-- Is this event an increment of the shared counter by the relay
thread? -/
def Event.isRelayIncr : Event → Bool
  | .incrCounter .relay => true
  | _ => false

/-- Is this event an increment of the shared counter by the engine
thread? -/
def Event.isEngineIncr : Event → Bool
  | .incrCounter .engine => true
  | _ => false

/-- Is this event a send on the key channel? -/
def Event.isSendKey : Event → Bool
  | .sendKey _ => true
  | _ => false

/-- Is this event a receive on the acknowledgment channel? -/
def Event.isRecvQuit : Event → Bool
  | .recvQuit _ => true
  | _ => false

/-- The single-quote character (written via its code point to keep the
sources free of quote literals). -/
def squote : Char := Char.ofNat 39

/-- The backslash character. -/
def backslash : Char := Char.ofNat 92

/-- The replacement Rust writes for each single quote when quoting for
the shell: the four characters quote, backslash, quote, quote. -/
def squote_replacement : List Char := [squote, backslash, squote, squote]

/-- One character of the `SIMPLE_PATH` character class `[\w/.-]` from
`src/external.rs`.  The regex crate's `\w` is Unicode-aware (it matches
far more than the ASCII letters, digits and underscore); its full
character table is outside this embedding, so — exactly as the process
environment is a parameter of `resolve_env_variable` — the regex
engine's word-character class is passed as the predicate `w`. -/
def simple_path_char (w : Char → Bool) (c : Char) : Bool :=
  w c || c == '/' || c == '.' || c == '-'

/-- The `SIMPLE_PATH` regex of `src/external.rs`, `^[\w/.-]*$`, with
word characters decided by `w`: every character of the string belongs to
the class (the empty string matches). -/
def simple_path (w : Char → Bool) (s : String) : Bool :=
  s.data.all (simple_path_char w)

/-- Rust's `str::replace` of the single-quote character by `squote_replacement`,
character by character (the Rust pattern is the single char `'\''`). -/
def replace_squotes : List Char → List Char
  | [] => []
  | c :: cs =>
    (if c = squote then squote_replacement else [c]) ++ replace_squotes cs

/-- Function `escape_for_shell` from `src/external.rs`: the path's string is left
unchanged when it matches `SIMPLE_PATH`, otherwise it is wrapped in
single quotes with every internal single quote replaced by the sequence
quote-backslash-quote-quote.  The path is modelled as its (lossy)
string; `w` is the regex engine's word-character class. -/
def escape_for_shell (w : Char → Bool) (path : String) : String :=
  if simple_path w path then path
  else ⟨squote :: (replace_squotes path.data ++ [squote])⟩

/-- Function `resolve_env_variable` from `src/external.rs`: if `s` starts with a
`$`, replace the whole string by the value of the environment variable
named by the rest of the string (`&s[1..]`, i.e. everything after the
one-byte `$`), when it is set; otherwise leave `s` unchanged.  The
process environment is passed as a function. -/
def resolve_env_variable (env : String → Option String) (s : String) :
    String :=
  if s.data.head? = some '$' then
    match env (String.mk (s.data.drop 1)) with
    | some v => v
    | none => s
  else s

/-- Function `Launchable::program` from `src/external.rs`: map
`resolve_env_variable` over the parts; the first becomes the executable,
the rest the arguments; an empty vector is an error. -/
def Launchable.program (env : String → Option String)
    (parts : List String) : Except String Launchable :=
  match parts.map (resolve_env_variable env) with
  | [] => Except.error "Empty launch string"
  | exe :: args => Except.ok (Launchable.Program exe args)



/-! ## Helper lemmas -/

/-- Dispatch on a non-empty stack always terminates with a result, and
the resulting stack is again non-empty. -/
lemma apply_command_go_some (ops : StateOps σ) :
    ∀ (sts : List σ) (q : Bool) (lae : Option Launchable) (cmd : Command)
      (screen : Screen), sts ≠ [] →
      ∃ out, apply_command_go ops sts q lae cmd screen = some out ∧
        out.1.states ≠ [] := by
  intro sts
  induction sts with
  | nil => intro q lae cmd screen h; simp at h
  | cons top rest ih =>
    intro q lae cmd screen _
    cases hres : (ops.apply top cmd).1 with
    | Quit => simp [apply_command_go, hres, dispatch_result]
    | Keep => simp [apply_command_go, hres, dispatch_result]
    | Launch l => simp [apply_command_go, hres, dispatch_result]
    | DisplayError msg => simp [apply_command_go, hres, dispatch_result]
    | NewState st c2 => simp [apply_command_go, hres, dispatch_result]
    | RefreshState => simp [apply_command_go, hres, dispatch_result]
    | PopState => cases rest <;> simp [apply_command_go, hres, dispatch_result]
    | PopStateAndReapply =>
      cases rest with
      | nil => simp [apply_command_go, hres, dispatch_result]
      | cons next rest2 =>
        simpa [apply_command_go, hres, dispatch_result] using
          ih q lae cmd (screen ++ [ScreenWrite.read_size,
            ScreenWrite.write_input cmd, ScreenWrite.write_flags]) (by simp)

/-! ## Claim theorems -/

/-- Claim C4: a cancellation token bound to a snapshot `K` of the shared
counter is expired iff the counter's value at check time differs from
`K`; an `Unlimited` token is never expired. -/
theorem claim_c4_token_expiry (k current : Nat) :
    (TaskLifetime.is_expired (TaskLifetime.bound k) current = true ↔
      current ≠ k) ∧
    TaskLifetime.is_expired TaskLifetime.unlimited current = false := by
  constructor
  · simp [TaskLifetime.is_expired]
  · rfl

/-- Claim C9: `escape_for_shell` returns the path's string unchanged when
every character is a word character (as decided by the regex engine's
class `w`), a slash, a dot or a dash — so in particular on the empty
string; otherwise it returns the string wrapped in single quotes with
every internal single quote replaced by the sequence
quote-backslash-quote-quote. -/
theorem claim_c9_escape_for_shell (w : Char → Bool) (path : String) :
    ((∀ c ∈ path.data, w c = true ∨ c = '/' ∨ c = '.' ∨ c = '-') →
      escape_for_shell w path = path) ∧
    ((¬ ∀ c ∈ path.data, w c = true ∨ c = '/' ∨ c = '.' ∨ c = '-') →
      escape_for_shell w path =
        ⟨squote :: (replace_squotes path.data ++ [squote])⟩) := by
  have hbridge : simple_path w path = true ↔
      ∀ c ∈ path.data, (w c = true ∨ c = '/' ∨ c = '.' ∨ c = '-') := by
    simp [simple_path, List.all_eq_true, simple_path_char, or_assoc]
  constructor
  · intro h
    simp [escape_for_shell, hbridge.mpr h]
  · intro h
    have hf : simple_path w path = false := by
      cases hsp : simple_path w path with
      | false => rfl
      | true => exact absurd (hbridge.mp hsp) h
    simp [escape_for_shell, hf]

/-- The ASCII fragment of the regex's word-character class (letters,
digits, underscore); on ASCII strings it agrees with the Unicode `\w`,
so it instantiates the C9 witness. -/
def ascii_word_char (c : Char) : Bool := c.isAlphanum || c == '_'

/-- Witness for C9 at two concrete ASCII paths (where the ASCII and
Unicode word-character classes agree). -/
theorem claim_c9_witness :
    escape_for_shell ascii_word_char "ab/c.d-e_f" = "ab/c.d-e_f" ∧
    escape_for_shell ascii_word_char "a b" =
      ⟨squote :: (replace_squotes ("a b").data ++ [squote])⟩ :=
  ⟨(claim_c9_escape_for_shell ascii_word_char "ab/c.d-e_f").1 (by decide),
   (claim_c9_escape_for_shell ascii_word_char "a b").2 (by decide)⟩

/-- Claim C10: `Launchable::program` errors exactly on the empty vector;
on a non-empty vector the first resolved part is the executable and the
remaining resolved parts, in order, are the arguments, where resolving
replaces an element with a leading dollar sign by the value of the
environment variable named by the rest of the element when it is set and
leaves the element unchanged otherwise. -/
theorem claim_c10_program (env : String → Option String)
    (parts : List String) :
    (parts = [] →
      Launchable.program env parts = Except.error "Empty launch string") ∧
    (∀ p ps, parts = p :: ps →
      Launchable.program env parts =
        Except.ok (Launchable.Program (resolve_env_variable env p)
          (ps.map (resolve_env_variable env)))) ∧
    (∀ s v, s.data.head? = some '$' → env (String.mk (s.data.drop 1)) = some v →
      resolve_env_variable env s = v) ∧
    (∀ s, s.data.head? = some '$' → env (String.mk (s.data.drop 1)) = none →
      resolve_env_variable env s = s) ∧
    (∀ s, s.data.head? ≠ some '$' → resolve_env_variable env s = s) := by
  refine ⟨?_, ?_, ?_, ?_, ?_⟩
  · intro h; subst h; rfl
  · intro p ps h; subst h; simp [Launchable.program]
  · intro s v hs hv
    simp only [List.drop_one] at hv
    simp [resolve_env_variable, hs, hv]
  · intro s hs hv
    simp only [List.drop_one] at hv
    simp [resolve_env_variable, hs, hv]
  · intro s hs; simp [resolve_env_variable, hs]

/-- The concrete environment used by the C10 witness: only `HOME` is
set. -/
def envHome : String → Option String :=
  fun n => if n = "HOME" then some "/home/u" else none

/-- Witness for C10 at concrete part vectors and elements. -/
theorem claim_c10_witness :
    Launchable.program envHome [] = Except.error "Empty launch string" ∧
    Launchable.program envHome ["$HOME", "x", "$NOPE"] =
      Except.ok (Launchable.Program (resolve_env_variable envHome "$HOME")
        (["x", "$NOPE"].map (resolve_env_variable envHome))) ∧
    resolve_env_variable envHome "$HOME" = "/home/u" ∧
    resolve_env_variable envHome "$NOPE" = "$NOPE" ∧
    resolve_env_variable envHome "xyz" = "xyz" :=
  ⟨(claim_c10_program envHome []).1 rfl,
   (claim_c10_program envHome ["$HOME", "x", "$NOPE"]).2.1 "$HOME"
     ["x", "$NOPE"] rfl,
   (claim_c10_program envHome []).2.2.1 "$HOME" "/home/u" (by decide)
     (by decide),
   (claim_c10_program envHome []).2.2.2.1 "$NOPE" (by decide) (by decide),
   (claim_c10_program envHome []).2.2.2.2 "xyz" (by decide)⟩

/-- Claim C1: when the active state's `apply` returns `PopStateAndReapply`
and the stack has more than one element, `apply_command` pops exactly one
state and re-runs the whole dispatch procedure with the same, unchanged
command against the new top of the stack; the stack strictly shrinks by
one at each such occurrence, and the dispatch always terminates with a
result. -/
theorem claim_c1_pop_state_and_reapply (ops : StateOps σ) (app : App σ)
    (cmd : Command) (screen : Screen) (top next : σ) (rest : List σ)
    (hstack : app.states = top :: next :: rest)
    (hres : (ops.apply top cmd).1 = AppStateCmdResult.PopStateAndReapply) :
    apply_command ops app cmd screen =
      apply_command ops ⟨next :: rest, app.quitting, app.launch_at_end⟩ cmd
        (screen ++ [ScreenWrite.read_size, ScreenWrite.write_input cmd,
          ScreenWrite.write_flags]) ∧
    app.states.length = (next :: rest).length + 1 ∧
    ∃ out, apply_command ops app cmd screen = some out := by
  refine ⟨?_, by simp [hstack], ?_⟩
  · simp [apply_command, hstack, apply_command_go, hres, dispatch_result]
  · obtain ⟨out, heq, -⟩ := apply_command_go_some ops app.states app.quitting
      app.launch_at_end cmd screen (by simp [hstack])
    exact ⟨out, heq⟩

/-- A concrete state implementation whose `apply` always asks for a pop
plus redispatch; used to witness C1 and C2. -/
def popReapplyOps : StateOps Nat where
  apply := fun s _ => (AppStateCmdResult.PopStateAndReapply, s)
  refresh := fun s => (Command.new, s)
  has_pending_tasks := fun _ => false
  do_pending_task := fun s => s

/-- Witness for C1 on a concrete two-element stack. -/
theorem claim_c1_witness :
    apply_command popReapplyOps ⟨[0, 1], false, none⟩ Command.new [] =
      apply_command popReapplyOps ⟨[1], false, none⟩ Command.new
        ([] ++ [ScreenWrite.read_size, ScreenWrite.write_input Command.new,
          ScreenWrite.write_flags]) ∧
    ([0, 1] : List Nat).length = ([1] : List Nat).length + 1 ∧
    ∃ out, apply_command popReapplyOps ⟨[0, 1], false, none⟩ Command.new [] =
      some out :=
  claim_c1_pop_state_and_reapply popReapplyOps ⟨[0, 1], false, none⟩
    Command.new [] 0 1 [] rfl rfl

/-- Claim C2: when the active state returns `PopState` or
`PopStateAndReapply` with a stack of exactly one element, the engine sets
the quitting flag and performs no pop; and dispatch on any non-empty
stack yields a result whose stack is again non-empty, so the engine never
observes an empty stack. -/
theorem claim_c2_stack_never_empty (ops : StateOps σ) (app : App σ)
    (cmd : Command) (screen : Screen) (top : σ)
    (hstack : app.states = [top])
    (hres : (ops.apply top cmd).1 = AppStateCmdResult.PopState ∨
      (ops.apply top cmd).1 = AppStateCmdResult.PopStateAndReapply) :
    apply_command ops app cmd screen =
      some (⟨[(ops.apply top cmd).2], true, app.launch_at_end⟩, cmd,
        screen ++ [ScreenWrite.read_size, ScreenWrite.write_input cmd,
          ScreenWrite.write_flags, ScreenWrite.write_input cmd,
          ScreenWrite.write_flags]) ∧
    (∀ (app2 : App σ) (cmd2 : Command) (screen2 : Screen) out,
      app2.states ≠ [] →
      apply_command ops app2 cmd2 screen2 = some out →
      out.1.states ≠ []) := by
  constructor
  · rcases hres with h | h <;>
      simp [apply_command, hstack, apply_command_go, h, dispatch_result]
  · intro app2 cmd2 screen2 out hne heq
    obtain ⟨out2, heq2, hne2⟩ := apply_command_go_some ops app2.states
      app2.quitting app2.launch_at_end cmd2 screen2 hne
    rw [apply_command] at heq
    rw [heq] at heq2
    cases heq2
    exact hne2

/-- Witness for C2 on a concrete one-element stack. -/
theorem claim_c2_witness :
    apply_command popReapplyOps ⟨[7], false, none⟩ Command.new [] =
      some (⟨[7], true, none⟩, Command.new,
        [] ++ [ScreenWrite.read_size, ScreenWrite.write_input Command.new,
          ScreenWrite.write_flags, ScreenWrite.write_input Command.new,
          ScreenWrite.write_flags]) ∧
    (∀ (app2 : App Nat) (cmd2 : Command) (screen2 : Screen) out,
      app2.states ≠ [] →
      apply_command popReapplyOps app2 cmd2 screen2 = some out →
      out.1.states ≠ []) :=
  claim_c2_stack_never_empty popReapplyOps ⟨[7], false, none⟩ Command.new []
    7 rfl (Or.inr rfl)

/-- Claim C8: when the active state's `apply` returns
`DisplayError(msg)`, the handling of that result only renders the message
in the status area: the stack (up to the mutation `apply` itself made to
the current state), the quitting flag and the stored deferred action are
all unchanged, and the stack length is preserved. -/
theorem claim_c8_display_error (ops : StateOps σ) (app : App σ)
    (cmd : Command) (screen : Screen) (top : σ) (rest : List σ)
    (msg : String)
    (hstack : app.states = top :: rest)
    (hres : (ops.apply top cmd).1 = AppStateCmdResult.DisplayError msg) :
    apply_command ops app cmd screen =
      some (⟨(ops.apply top cmd).2 :: rest, app.quitting, app.launch_at_end⟩,
        cmd,
        screen ++ [ScreenWrite.read_size, ScreenWrite.write_input cmd,
          ScreenWrite.write_flags, ScreenWrite.write_status_err msg,
          ScreenWrite.write_input cmd, ScreenWrite.write_flags]) ∧
    ((ops.apply top cmd).2 :: rest).length = app.states.length := by
  constructor
  · simp [apply_command, hstack, apply_command_go, hres, dispatch_result]
  · simp [hstack]

/-- A concrete state implementation whose `apply` always reports an
unknown verb; used to witness C8. -/
def errOps : StateOps Nat where
  apply := fun s _ => (AppStateCmdResult.DisplayError "verb not found", s)
  refresh := fun s => (Command.new, s)
  has_pending_tasks := fun _ => false
  do_pending_task := fun s => s

/-- Witness for C8 on a concrete stack. -/
theorem claim_c8_witness :
    apply_command errOps ⟨[3, 4], false, none⟩ Command.new [] =
      some (⟨[3, 4], false, none⟩, Command.new,
        [] ++ [ScreenWrite.read_size, ScreenWrite.write_input Command.new,
          ScreenWrite.write_flags,
          ScreenWrite.write_status_err "verb not found",
          ScreenWrite.write_input Command.new, ScreenWrite.write_flags]) ∧
    ([3, 4] : List Nat).length = ([3, 4] : List Nat).length :=
  claim_c8_display_error errOps ⟨[3, 4], false, none⟩ Command.new [] 3 [4]
    "verb not found" rfl rfl

/-- When the lifetime never expires and the state has pending work for
exactly the next `N` steps, the pump loop performs exactly `N` calls to
`do_pending_task` and exits because no pending work remains (given at
least `N` fuel). -/
lemma pump_loop_runs (ops : StateOps σ) (tl : TaskLifetime) (counter : Nat)
    (cmd : Command) (hexp : tl.is_expired counter = false) :
    ∀ (N fuel : Nat) (s : σ) (screen : Screen) (calls : Nat), 1 ≤ N →
      N ≤ fuel →
      (∀ k, 1 ≤ k → k < N →
        ops.has_pending_tasks (ops.do_pending_task^[k] s) = true) →
      ops.has_pending_tasks (ops.do_pending_task^[N] s) = false →
      ∃ screen2, pump_loop ops tl counter cmd fuel s screen calls =
        some (ops.do_pending_task^[N] s, screen2, calls + N,
          PumpExit.noMoreWork) := by
  intro N
  induction N with
  | zero => intro fuel s screen calls h1; exact absurd h1 (by omega)
  | succ n ih =>
    intro fuel s screen calls _ hfuel hmid hend
    obtain ⟨f, rfl⟩ : ∃ f, fuel = f + 1 := ⟨fuel - 1, by omega⟩
    by_cases hn : n = 0
    · subst hn
      have hp : ops.has_pending_tasks (ops.do_pending_task s) = false := by
        simpa [Function.iterate_one] using hend
      exact ⟨screen ++ [ScreenWrite.write_status cmd,
          ScreenWrite.write_spinner true, ScreenWrite.display],
        by simp [pump_loop, hexp, hp, Function.iterate_one]⟩
    · have hpend1 : ops.has_pending_tasks (ops.do_pending_task s) = true := by
        have := hmid 1 (by omega) (by omega)
        simpa [Function.iterate_one] using this
      have ih2 := ih f (ops.do_pending_task s)
        (screen ++ [ScreenWrite.write_status cmd,
          ScreenWrite.write_spinner true, ScreenWrite.display])
        (calls + 1) (by omega) (by omega)
        (fun k hk1 hk2 => by
          have := hmid (k + 1) (by omega) (by omega)
          simpa [Function.iterate_succ_apply] using this)
        (by simpa [Function.iterate_succ_apply] using hend)
      obtain ⟨scr2, hsc⟩ := ih2
      refine ⟨scr2, ?_⟩
      have e1 : ops.do_pending_task^[n] (ops.do_pending_task s) =
          ops.do_pending_task^[n + 1] s :=
        (Function.iterate_succ_apply _ _ _).symm
      have e2 : calls + 1 + n = calls + (n + 1) := by omega
      rw [e1, e2] at hsc
      simpa [pump_loop, hexp, hpend1] using hsc

/-- Claim C5: for a state whose `has_pending_tasks` answers true for
exactly `N` consecutive calls to `do_pending_task` before answering
false, and a token that never expires during the pump,
`do_pending_tasks` calls `do_pending_task` exactly `N` times and exits
its loop because no pending work remains, not because of expiry (the
loop never runs when `N = 0`). -/
theorem claim_c5_pump_exact_n (ops : StateOps σ) (cmd : Command)
    (tl : TaskLifetime) (counter fuel N : Nat) (screen : Screen) (top : σ)
    (rest : List σ) (q : Bool) (lae : Option Launchable)
    (hN : ∀ k, k < N →
      ops.has_pending_tasks (ops.do_pending_task^[k] top) = true)
    (hNend : ops.has_pending_tasks (ops.do_pending_task^[N] top) = false)
    (hexp : tl.is_expired counter = false)
    (hfuel : N ≤ fuel) :
    ∃ screen2,
      do_pending_tasks ops fuel ⟨top :: rest, q, lae⟩ cmd tl counter screen =
        some (⟨ops.do_pending_task^[N] top :: rest, q, lae⟩, screen2, N,
          if N = 0 then none else some PumpExit.noMoreWork) := by
  by_cases h0 : N = 0
  · subst h0
    have hpf : ops.has_pending_tasks top = false := by simpa using hNend
    exact ⟨screen ++ [ScreenWrite.display],
      by simp [do_pending_tasks, hpf]⟩
  · have hp0 : ops.has_pending_tasks top = true := by
      simpa using hN 0 (by omega)
    obtain ⟨scr2, hsc⟩ := pump_loop_runs ops tl counter cmd hexp N fuel top
      screen 0 (by omega) hfuel (fun k _ hk2 => hN k hk2) hNend
    refine ⟨scr2 ++ [ScreenWrite.write_spinner false, ScreenWrite.display],
      ?_⟩
    simp only [Nat.zero_add] at hsc
    simp [do_pending_tasks, hp0, hsc, h0]

/-- A concrete state implementation counting down its pending work; used
to witness C5. -/
def pendOps : StateOps Nat where
  apply := fun s _ => (AppStateCmdResult.Keep, s)
  refresh := fun s => (Command.new, s)
  has_pending_tasks := fun s => s != 0
  do_pending_task := fun s => s - 1

/-- Witness for C5: a state with exactly 2 pending steps, pumped with a
non-expired token and enough fuel. -/
theorem claim_c5_witness :
    ∃ screen2,
      do_pending_tasks pendOps 2 ⟨[2], false, none⟩ Command.new
          (TaskLifetime.bound 3) 3 [] =
        some (⟨pendOps.do_pending_task^[2] 2 :: [], false, none⟩, screen2, 2,
          if 2 = 0 then none else some PumpExit.noMoreWork) :=
  claim_c5_pump_exact_n pendOps Command.new (TaskLifetime.bound 3) 3 2 2 []
    2 [] false none (by decide) (by decide) (by decide) (by decide)

/-- When no state ever answers `Launch`, dispatch leaves the deferred
launch (`launch_at_end`) unchanged. -/
lemma apply_command_go_no_launch (ops : StateOps σ)
    (hnl : ∀ (s : σ) (c : Command) (l : Launchable),
      (ops.apply s c).1 ≠ AppStateCmdResult.Launch l) :
    ∀ (sts : List σ) (q : Bool) (lae : Option Launchable) (cmd : Command)
      (screen : Screen) (out : App σ × Command × Screen),
      apply_command_go ops sts q lae cmd screen = some out →
      out.1.launch_at_end = lae := by
  intro sts
  induction sts with
  | nil => intro q lae cmd screen out h; simp [apply_command_go] at h
  | cons top rest ih =>
    intro q lae cmd screen out h
    cases hres : (ops.apply top cmd).1 with
    | Launch l => exact absurd hres (hnl top cmd l)
    | Quit =>
      simp only [apply_command_go, dispatch_result, hres] at h
      injection h with h2
      subst h2
      rfl
    | Keep =>
      simp only [apply_command_go, dispatch_result, hres] at h
      injection h with h2
      subst h2
      rfl
    | DisplayError msg =>
      simp only [apply_command_go, dispatch_result, hres] at h
      injection h with h2
      subst h2
      rfl
    | NewState st c2 =>
      simp only [apply_command_go, dispatch_result, hres] at h
      injection h with h2
      subst h2
      rfl
    | RefreshState =>
      simp only [apply_command_go, dispatch_result, hres] at h
      injection h with h2
      subst h2
      rfl
    | PopState =>
      cases rest with
      | nil =>
        simp only [apply_command_go, dispatch_result, hres] at h
        injection h with h2
        subst h2
        rfl
      | cons next rest2 =>
        simp only [apply_command_go, dispatch_result, hres] at h
        injection h with h2
        subst h2
        rfl
    | PopStateAndReapply =>
      cases rest with
      | nil =>
        simp only [apply_command_go, dispatch_result, hres] at h
        injection h with h2
        subst h2
        rfl
      | cons next rest2 =>
        simp only [apply_command_go, dispatch_result, hres] at h
        exact ih q lae cmd _ out (by simp only [apply_command_go]; exact h)

/-- The pending-task pump never touches the quitting flag or the deferred
launch. -/
lemma do_pending_tasks_fields (ops : StateOps σ) (fuel : Nat) (app : App σ)
    (cmd : Command) (tl : TaskLifetime) (counter : Nat) (screen : Screen)
    (r : App σ × Screen × Nat × Option PumpExit)
    (h : do_pending_tasks ops fuel app cmd tl counter screen = some r) :
    r.1.quitting = app.quitting ∧ r.1.launch_at_end = app.launch_at_end := by
  rcases hs : app.states with _ | ⟨top, rest⟩
  · simp [do_pending_tasks, hs] at h
  · by_cases hp : ops.has_pending_tasks top = true
    · rcases hpl : pump_loop ops tl counter cmd fuel top screen 0 with
        _ | ⟨top1, scr1, calls1, ex1⟩
      · simp [do_pending_tasks, hs, hp, hpl] at h
      · simp only [do_pending_tasks, hs, hp, hpl, if_true] at h
        injection h with h2
        subst h2
        exact ⟨rfl, rfl⟩
    · rw [Bool.not_eq_true] at hp
      simp only [do_pending_tasks, hs, hp, Bool.false_eq_true, if_false] at h
      injection h with h2
      subst h2
      exact ⟨rfl, rfl⟩

/-- When no state ever answers `Launch`, the whole interactive loop
leaves the deferred launch unchanged. -/
lemma run_loop_no_launch (ops : StateOps σ) (fuel : Nat)
    (hnl : ∀ (s : σ) (c : Command) (l : Launchable),
      (ops.apply s c).1 ≠ AppStateCmdResult.Launch l) :
    ∀ (keys : List Key) (app : App σ) (cmd : Command) (counter : Nat)
      (screen : Screen) (out : App σ × Command × Screen),
      run_loop ops fuel keys app cmd counter screen = some out →
      out.1.launch_at_end = app.launch_at_end := by
  intro keys
  induction keys with
  | nil =>
    intro app cmd counter screen out h
    by_cases hq : app.quitting = true
    · simp only [run_loop, hq, if_true] at h
      injection h with h2
      subst h2
      rfl
    · rw [Bool.not_eq_true] at hq
      simp only [run_loop, hq, Bool.false_eq_true, if_false] at h
      rcases hd : do_pending_tasks ops fuel app cmd (TaskLifetime.bound counter)
          counter screen with _ | r
      · rw [hd] at h; simp at h
      · rw [hd] at h
        simp only [Option.some_bind] at h
        injection h with h2
        subst h2
        exact (do_pending_tasks_fields ops fuel app cmd _ counter screen r hd).2
  | cons k ks ih =>
    intro app cmd counter screen out h
    by_cases hq : app.quitting = true
    · simp only [run_loop, hq, if_true] at h
      injection h with h2
      subst h2
      rfl
    · rw [Bool.not_eq_true] at hq
      simp only [run_loop, hq, Bool.false_eq_true, if_false] at h
      rcases hd : do_pending_tasks ops fuel app cmd (TaskLifetime.bound counter)
          counter screen with _ | r
      · rw [hd] at h; simp at h
      · rw [hd] at h
        simp only [Option.some_bind] at h
        rcases happ : apply_command ops r.1 (cmd.add_key k) r.2.1 with _ | r2
        · rw [happ] at h; simp at h
        · rw [happ] at h
          simp only [Option.some_bind] at h
          have e1 : r.1.launch_at_end = app.launch_at_end :=
            (do_pending_tasks_fields ops fuel app cmd _ counter screen r hd).2
          have e2 : r2.1.launch_at_end = r.1.launch_at_end := by
            rw [apply_command] at happ
            exact apply_command_go_no_launch ops hnl r.1.states r.1.quitting
              r.1.launch_at_end (cmd.add_key k) r.2.1 r2 happ
          have e3 : out.1.launch_at_end = r2.1.launch_at_end :=
            ih r2.1 r2.2.1 (counter + 1) r2.2.2 out h
          rw [e3, e2, e1]

/-- Claim C7: a dispatch in which the active state returns
`Launch(action)` stores exactly that action and sets the quitting flag;
once quitting is set the interactive loop exits at once with the app
unchanged, so `run` returns that stored action; and when no `Launch`
result ever occurs, the loop leaves the deferred action unchanged (so
`run`, which starts with none, returns none). -/
theorem claim_c7_launch_returned :
    (∀ (σ : Type) (ops : StateOps σ) (app : App σ) (cmd : Command)
        (screen : Screen) (top : σ) (rest : List σ) (l : Launchable),
      app.states = top :: rest →
      (ops.apply top cmd).1 = AppStateCmdResult.Launch l →
      apply_command ops app cmd screen =
        some (⟨(ops.apply top cmd).2 :: rest, true, some l⟩, cmd,
          screen ++ [ScreenWrite.read_size, ScreenWrite.write_input cmd,
            ScreenWrite.write_flags, ScreenWrite.write_input cmd,
            ScreenWrite.write_flags])) ∧
    (∀ (σ : Type) (ops : StateOps σ) (fuel : Nat) (keys : List Key)
        (app : App σ) (cmd : Command) (counter : Nat) (screen : Screen),
      app.quitting = true →
      run_loop ops fuel keys app cmd counter screen =
        some (app, cmd, screen)) ∧
    (∀ (σ : Type) (ops : StateOps σ) (fuel : Nat) (keys : List Key)
        (app : App σ) (cmd : Command) (counter : Nat) (screen : Screen)
        (out : App σ × Command × Screen),
      (∀ (s : σ) (c : Command) (l : Launchable),
        (ops.apply s c).1 ≠ AppStateCmdResult.Launch l) →
      run_loop ops fuel keys app cmd counter screen = some out →
      out.1.launch_at_end = app.launch_at_end) := by
  refine ⟨?_, ?_, ?_⟩
  · intro σ ops app cmd screen top rest l hstack hres
    simp [apply_command, hstack, apply_command_go, hres, dispatch_result]
  · intro σ ops fuel keys app cmd counter screen hq
    cases keys <;> simp [run_loop, hq]
  · intro σ ops fuel keys app cmd counter screen out hnl h
    exact run_loop_no_launch ops fuel hnl keys app cmd counter screen out h

/-- A concrete state implementation whose `apply` always asks to launch a
printer; used to witness C7. -/
def launchOps : StateOps Nat where
  apply := fun s _ => (AppStateCmdResult.Launch (Launchable.Printer "bye"), s)
  refresh := fun s => (Command.new, s)
  has_pending_tasks := fun _ => false
  do_pending_task := fun s => s

/-- Witness for C7: a concrete `Launch` dispatch, a concrete quitting
loop exit, and a concrete launch-free loop that preserves the deferred
action. -/
theorem claim_c7_witness :
    apply_command launchOps ⟨[4], false, none⟩ Command.new [] =
      some (⟨(launchOps.apply 4 Command.new).2 :: [], true,
          some (Launchable.Printer "bye")⟩, Command.new,
        [] ++ [ScreenWrite.read_size, ScreenWrite.write_input Command.new,
          ScreenWrite.write_flags, ScreenWrite.write_input Command.new,
          ScreenWrite.write_flags]) ∧
    run_loop errOps 0 [] ⟨[1], true, none⟩ Command.new 0 [] =
      some (⟨[1], true, none⟩, Command.new, []) ∧
    (((⟨[5], false, none⟩ : App Nat), Command.new,
        ([ScreenWrite.display] : Screen)) :
      App Nat × Command × Screen).1.launch_at_end =
      (⟨[5], false, none⟩ : App Nat).launch_at_end :=
  ⟨claim_c7_launch_returned.1 Nat launchOps ⟨[4], false, none⟩ Command.new []
      4 [] (Launchable.Printer "bye") rfl rfl,
   claim_c7_launch_returned.2.1 Nat errOps 0 [] ⟨[1], true, none⟩
      Command.new 0 [] rfl,
   claim_c7_launch_returned.2.2 Nat errOps 1 [] ⟨[5], false, none⟩
      Command.new 0 []
      ((⟨[5], false, none⟩ : App Nat), Command.new, [ScreenWrite.display])
      (fun s c l => by simp [errOps]) (by decide)⟩

/-- Counting a predicate over a prefix never exceeds its count over the
whole list. -/
lemma countP_take_le {α : Type} (p : α → Bool) (l : List α) (n : Nat) :
    (l.take n).countP p ≤ l.countP p :=
  (List.take_sublist n l).countP_le p

/-- A prefix-count bound composes across an append whose left part is
balanced. -/
lemma countP_take_append_le {α : Type} (p q : α → Bool) (c : Nat)
    (l1 l2 : List α)
    (h1 : ∀ n, (l1.take n).countP p ≤ (l1.take n).countP q + c)
    (hfull : l1.countP p ≤ l1.countP q)
    (h2 : ∀ n, (l2.take n).countP p ≤ (l2.take n).countP q + c) (n : Nat) :
    ((l1 ++ l2).take n).countP p ≤ ((l1 ++ l2).take n).countP q + c := by
  rw [List.take_append_eq_append_take, List.countP_append,
    List.countP_append]
  rcases le_or_lt n l1.length with h | h
  · have h0 : n - l1.length = 0 := by omega
    rw [h0]
    simpa using h1 n
  · rw [List.take_of_length_le (by omega : l1.length ≤ n)]
    have := h2 (n - l1.length)
    omega

/-- Any prefix of a list carrying at most one `p`-event satisfies the
slack-one bound against any other count. -/
lemma countP_take_bound_of_le_one {α : Type} (p q : α → Bool) (l : List α)
    (h : l.countP p ≤ 1) (n : Nat) :
    (l.take n).countP p ≤ (l.take n).countP q + 1 := by
  have := countP_take_le p l n
  omega

/-- In a list starting with a `q`-event (not a `p`-event) and carrying at
most one `p`-event overall, every prefix has at least as many `q`-events
as `p`-events. -/
lemma countP_take_cons_bound {α : Type} (p q : α → Bool) (a : α)
    (tl : List α) (hpa : p a = false) (hqa : q a = true)
    (htl : tl.countP p ≤ 1) (n : Nat) :
    ((a :: tl).take n).countP p ≤ ((a :: tl).take n).countP q := by
  cases n with
  | zero => simp
  | succ m =>
    rw [List.take_succ_cons]
    have := countP_take_le p tl m
    simp [List.countP_cons, hpa, hqa]
    omega

/-- In every prefix of the handshake trace there is at most one
unacknowledged key: the number of key-channel sends never exceeds the
number of received acknowledgments plus one. -/
lemma handshake_send_recv_bound :
    ∀ (keys : List Key) (quits : List Bool) (n : Nat),
    ((handshake_trace keys quits).take n).countP Event.isSendKey ≤
    ((handshake_trace keys quits).take n).countP Event.isRecvQuit + 1 := by
  intro keys
  induction keys with
  | nil => intro quits n; simp [handshake_trace]
  | cons k ks ih =>
    intro quits n
    cases quits with
    | nil =>
      exact countP_take_bound_of_le_one _ _ _
        (by simp [handshake_trace, List.countP_cons, Event.isSendKey]) n
    | cons q qs =>
      cases q with
      | true =>
        exact countP_take_bound_of_le_one _ _ _
          (by simp [handshake_trace, List.countP_cons, Event.isSendKey]) n
      | false =>
        have heq : handshake_trace (k :: ks) (false :: qs) =
            [Event.incrCounter ThreadId.relay, Event.sendKey k,
             Event.recvKey k, Event.addKey k, Event.dispatch,
             Event.sendQuit false, Event.recvQuit false] ++
              handshake_trace ks qs := by
          simp [handshake_trace]
        rw [heq]
        refine countP_take_append_le _ _ 1 _ _ ?_ ?_ (ih qs) n
        · exact countP_take_bound_of_le_one _ _ _
            (by simp [List.countP_cons, Event.isSendKey])
        · simp [List.countP_cons, Event.isSendKey, Event.isRecvQuit]

/-- The engine thread never increments the shared counter, and the relay
thread increments it exactly once per key it sends. -/
lemma handshake_incr_counts :
    ∀ (keys : List Key) (quits : List Bool),
    (handshake_trace keys quits).countP Event.isEngineIncr = 0 ∧
    (handshake_trace keys quits).countP Event.isRelayIncr =
      (handshake_trace keys quits).countP Event.isSendKey := by
  intro keys
  induction keys with
  | nil => intro quits; simp [handshake_trace]
  | cons k ks ih =>
    intro quits
    cases quits with
    | nil =>
      simp [handshake_trace, List.countP_cons, Event.isEngineIncr,
        Event.isRelayIncr, Event.isSendKey]
    | cons q qs =>
      cases q with
      | true =>
        simp [handshake_trace, List.countP_cons, Event.isEngineIncr,
          Event.isRelayIncr, Event.isSendKey]
      | false =>
        have := ih qs
        simp [handshake_trace, List.countP_cons, List.countP_append,
          Event.isEngineIncr, Event.isRelayIncr, Event.isSendKey, this.1,
          this.2]

/-- In every prefix of the handshake trace, each key sent was preceded by
its counter increment: sends never outnumber relay increments. -/
lemma handshake_send_le_relay_incr :
    ∀ (keys : List Key) (quits : List Bool) (n : Nat),
    ((handshake_trace keys quits).take n).countP Event.isSendKey ≤
    ((handshake_trace keys quits).take n).countP Event.isRelayIncr := by
  intro keys
  induction keys with
  | nil => intro quits n; simp [handshake_trace]
  | cons k ks ih =>
    intro quits n
    cases quits with
    | nil =>
      have heq : handshake_trace (k :: ks) ([] : List Bool) =
          Event.incrCounter ThreadId.relay ::
            [Event.sendKey k, Event.recvKey k, Event.addKey k,
             Event.dispatch] := by
        simp [handshake_trace]
      rw [heq]
      exact countP_take_cons_bound _ _ _ _ rfl rfl
        (by simp [List.countP_cons, Event.isSendKey]) n
    | cons q qs =>
      cases q with
      | true =>
        have heq : handshake_trace (k :: ks) (true :: qs) =
            Event.incrCounter ThreadId.relay ::
              [Event.sendKey k, Event.recvKey k, Event.addKey k,
               Event.dispatch, Event.sendQuit true, Event.recvQuit true] := by
          simp [handshake_trace]
        rw [heq]
        exact countP_take_cons_bound _ _ _ _ rfl rfl
          (by simp [List.countP_cons, Event.isSendKey]) n
      | false =>
        have heq : handshake_trace (k :: ks) (false :: qs) =
            [Event.incrCounter ThreadId.relay, Event.sendKey k,
             Event.recvKey k, Event.addKey k, Event.dispatch,
             Event.sendQuit false, Event.recvQuit false] ++
              handshake_trace ks qs := by
          simp [handshake_trace]
        rw [heq]
        have hcomp := countP_take_append_le Event.isSendKey
          Event.isRelayIncr 0 _ _
          (fun m => by
            simpa using countP_take_cons_bound Event.isSendKey
              Event.isRelayIncr (Event.incrCounter ThreadId.relay)
              [Event.sendKey k, Event.recvKey k, Event.addKey k,
               Event.dispatch, Event.sendQuit false, Event.recvQuit false]
              rfl rfl (by simp [List.countP_cons, Event.isSendKey]) m)
          (by simp [List.countP_cons, Event.isSendKey, Event.isRelayIncr])
          (fun m => by simpa using ih qs m) n
        simpa using hcomp

/-- Claim C6: at every point of the relay/engine handshake there is at
most one unacknowledged key in flight — in every prefix of the trace the
key-channel sends never exceed the received acknowledgments by more than
one — and on receiving a `true` acknowledgment the relay returns instead
of reading another key (the trace ends right after the `recvQuit`). -/
theorem claim_c6_at_most_one_in_flight (keys : List Key)
    (quits : List Bool) :
    (∀ n, ((handshake_trace keys quits).take n).countP Event.isSendKey ≤
      ((handshake_trace keys quits).take n).countP Event.isRecvQuit + 1) ∧
    (∀ (k : Key) (ks : List Key) (qs : List Bool),
      handshake_trace (k :: ks) (true :: qs) =
        [Event.incrCounter ThreadId.relay, Event.sendKey k, Event.recvKey k,
         Event.addKey k, Event.dispatch, Event.sendQuit true,
         Event.recvQuit true]) :=
  ⟨handshake_send_recv_bound keys quits,
   fun k ks qs => by simp [handshake_trace]⟩

/-- Counterexample to claim C3 as stated: in the trace for one accepted
key, the engine thread performs no counter increment at all — the single
increment is performed by the relay thread, before the key is even sent
on the key channel, contradicting "incremented exactly once by the engine
thread, after the engine receives the key". -/
theorem claim_c3_counterexample :
    handshake_trace [0] [false] =
      [Event.incrCounter ThreadId.relay, Event.sendKey 0, Event.recvKey 0,
       Event.addKey 0, Event.dispatch, Event.sendQuit false,
       Event.recvQuit false] ∧
    (handshake_trace [0] [false]).countP Event.isEngineIncr = 0 ∧
    ¬(handshake_trace [0] [false]).countP Event.isEngineIncr = 1 := by
  refine ⟨by decide, by decide, by decide⟩

/-- Claim C3 as amended: for each key read by the input relay, the shared
counter is incremented exactly once, by the relay thread, after reading
the key and before sending it on the key channel; the engine thread never
writes the counter. -/
theorem claim_c3_relay_owns_counter (keys : List Key) (quits : List Bool) :
    (handshake_trace keys quits).countP Event.isEngineIncr = 0 ∧
    (handshake_trace keys quits).countP Event.isRelayIncr =
      (handshake_trace keys quits).countP Event.isSendKey ∧
    (∀ n, ((handshake_trace keys quits).take n).countP Event.isSendKey ≤
      ((handshake_trace keys quits).take n).countP Event.isRelayIncr) :=
  ⟨(handshake_incr_counts keys quits).1,
   (handshake_incr_counts keys quits).2,
   handshake_send_le_relay_incr keys quits⟩
